import Mathlib

/-!
# Sharded client registry (`pkg/s3client/clientmanager.go`)

A shallow embedding of `ShardedClientManager` and its operations
`NewShardedClientManager`, `Load`, `Get`, `GetAll` and `extractHost`.

* Go values `(x, err)` are pairs whose second component is an `Option GoError`
  (`none` is a nil error).
* The Go map `map[uuid.UUID]*S3Client` is a finite map with unique keys
  (`AList`): `lookup` is indexing, `insert` is assignment to a key.
* The standard library's `url.Parse` and minio's `minio.New` are external to the
  repository; the operations take them as the two fields of `Env`.  A reference
  instance `goEnv` is given for concrete evaluations.
* The metadata store is external as well: the outcome of the one
  `s.store.Tx(...)` call of a `Load` is an argument of `Load`.
* `Load` records the calls it makes, in program order, in a list of `Event`s.
-/

namespace s3client

/-! ## Errors, identifiers, records -/

/-- Go `error` values seen by this package: the package's own sentinel
`ErrClientNotFound`, or an error produced by a collaborator (metadata store,
`url.Parse`, `minio.New`), carried with its message. -/
inductive GoError where
  | clientNotFound
  | other (msg : String)
  deriving DecidableEq, Repr

/-- The sentinel `var ErrClientNotFound = errors.New("client not found")`. -/
def ErrClientNotFound : GoError := GoError.clientNotFound

/-- A `uuid.UUID` is sixteen bytes, that is a number below `2 ^ 128`. -/
abbrev UUID := Fin (2 ^ 128)

/-- Modelled from the spec: `model.Bucket` (package `repository/model` is not
among the sources), the `BucketRecord` of the data model with the three fields
`Load` reads. -/
structure Bucket where
  Id : UUID
  Name : String
  EndpointUrl : String
  deriving DecidableEq, Repr

/-- Modelled from the spec: `config.Config` (package `config` is not among the
sources), with the three settings `Load` reads. -/
structure Config where
  AccessKey : String
  SecretKey : String
  Secure : Bool
  deriving DecidableEq, Repr

/-- The value of `credentials.NewStaticV4(id, secret, token)`. -/
structure Credentials where
  AccessKeyID : String
  SecretAccessKey : String
  SessionToken : String
  deriving DecidableEq, Repr

/-- The two fields of `minio.Options` that `Load` sets. -/
structure Options where
  Creds : Credentials
  Secure : Bool
  deriving DecidableEq, Repr

/-- The result of `credentials.NewStaticV4`. -/
def NewStaticV4 (id secret token : String) : Credentials :=
  { AccessKeyID := id, SecretAccessKey := secret, SessionToken := token }

/-- The part of `url.URL` that a parse fills in. -/
structure URL where
  Scheme : String
  Opaque : String
  Host : String
  Path : String
  RawQuery : String
  Fragment : String
  deriving DecidableEq, Repr

/-- The two library functions `Load` calls: `url.Parse` of the Go standard
library and `minio.New`, whose clients have type `C`. -/
structure Env (C : Type) where
  urlParse : String → Except GoError URL
  minioNew : String → Options → Except GoError C

/-- Modelled from the spec: `S3Client` (its declaration is in another file of the
package, not among the sources): a storage client is a transport handle together
with the bucket name it is scoped to. -/
structure S3Client (C : Type) where
  client : C
  bucketName : String
  deriving DecidableEq, Repr

/-- Modelled from the spec: the constructor `NewS3Client(m, bucket.Name)` (declared
in another file of the package): it packs the transport and the bucket name. -/
def NewS3Client {C : Type} (m : C) (bucketName : String) : S3Client C :=
  { client := m, bucketName := bucketName }

/-- The Go map `map[uuid.UUID]*S3Client`. -/
abbrev ClientMap (C : Type) := AList (fun _ : UUID => S3Client C)

/-- The struct `ShardedClientManager`.  The `store` field is the external metadata
store, whose answers are arguments of `Load`; the mutex `mu` appears as the
`lock` and `unlock` events of `Load`. -/
structure ShardedClientManager (C : Type) where
  config : Config
  clients : ClientMap C

/-- The calls and assignments of one `Load`, in program order. -/
inductive Event where
  /-- the call `s.store.Tx(ctx, ...)` that lists the buckets -/
  | txListBuckets
  /-- the call `s.mu.Lock()` -/
  | lock
  /-- the deferred `s.mu.Unlock()` -/
  | unlock
  /-- the assignment `s.clients = make(map[uuid.UUID]*S3Client)` -/
  | makeClients
  /-- the call `extractHost(bucket.EndpointUrl)` -/
  | extractHost (endpoint : String)
  /-- the call `minio.New(host, ...)` -/
  | minioNew (host : String)
  /-- the assignment `s.clients[bucket.Id] = NewS3Client(m, bucket.Name)` -/
  | setClient (id : UUID) (bucketName : String)
  deriving DecidableEq, Repr

/-! ## `extractHost` -/

/-- The test `strings.HasPrefix(s, p)`: the characters of `p` start `s`. -/
def HasPrefix (s p : String) : Bool :=
  p.data.isPrefixOf s.data

/-- The function `extractHost`. -/
def extractHost {C : Type} (env : Env C) (endpoint : String) : String × Option GoError :=
  if HasPrefix endpoint "https://" || HasPrefix endpoint "http://" then
    match env.urlParse endpoint with
    | Except.error err => ("", some err)
    | Except.ok parsed => (parsed.Host, none)
  else
    (endpoint, none)

/-! ## The registry operations -/

/-- The function `NewShardedClientManager`. -/
def NewShardedClientManager {C : Type} (config : Config) : ShardedClientManager C :=
  { config := config, clients := ∅ }

/-- The options `Load` passes to `minio.New`: static credentials from the
configuration with an empty session token, and the configured `Secure` flag. -/
def clientOptions (config : Config) : Options :=
  { Creds := NewStaticV4 config.AccessKey config.SecretKey "", Secure := config.Secure }

/-- The `for _, bucket := range buckets` loop of `Load`, from the mapping built so
far: the mapping it leaves in `s.clients`, the error it returns and the events. -/
def loadLoop {C : Type} (env : Env C) (config : Config) :
    List Bucket → ClientMap C → ClientMap C × Option GoError × List Event
  | [], clients => (clients, none, [])
  | bucket :: rest, clients =>
    match extractHost env bucket.EndpointUrl with
    | (_, some err) => (clients, some err, [Event.extractHost bucket.EndpointUrl])
    | (host, none) =>
      match env.minioNew host (clientOptions config) with
      | Except.error err =>
        (clients, some err, [Event.extractHost bucket.EndpointUrl, Event.minioNew host])
      | Except.ok m =>
        let r := loadLoop env config rest (clients.insert bucket.Id (NewS3Client m bucket.Name))
        (r.1, r.2.1,
          Event.extractHost bucket.EndpointUrl :: Event.minioNew host ::
            Event.setClient bucket.Id bucket.Name :: r.2.2)

/-- What a `Load` call leaves behind: the registry, the returned error and the
events of the call. -/
structure LoadResult (C : Type) where
  state : ShardedClientManager C
  err : Option GoError
  trace : List Event

/-- The method `Load`.  `tx` is the outcome of `s.store.Tx(ctx, ...)`: an error, or
nil with the listed records left in `buckets`. -/
def Load {C : Type} (env : Env C) (s : ShardedClientManager C)
    (tx : Except GoError (List Bucket)) : LoadResult C :=
  match tx with
  | Except.error err => { state := s, err := some err, trace := [Event.txListBuckets] }
  | Except.ok buckets =>
    let r := loadLoop env s.config buckets ∅
    { state := { s with clients := r.1 }
      err := r.2.1
      trace := Event.txListBuckets :: Event.lock :: Event.makeClients :: (r.2.2 ++ [Event.unlock]) }

/-- The method `Get`. -/
def Get {C : Type} (s : ShardedClientManager C) (bucketId : UUID) :
    Option (S3Client C) × Option GoError :=
  match s.clients.lookup bucketId with
  | none => (none, some ErrClientNotFound)
  | some client => (some client, none)

/-- The loop of `GetAll`: `order` is the order in which `range` hands out the keys;
each key comes with its client and the client is appended.  (A key that is not in
the map, which `range` never hands out, adds nothing.) -/
def getAllLoop {C : Type} (m : ClientMap C) : List UUID → List (S3Client C) → List (S3Client C)
  | [], clients => clients
  | key :: rest, clients =>
    match m.lookup key with
    | some client => getAllLoop m rest (clients ++ [client])
    | none => getAllLoop m rest clients

/-- The method `GetAll`, with the registry it leaves.  Go's `range` over a map
visits every key once in an order the runtime picks; `order` is that order. -/
def GetAll {C : Type} (s : ShardedClientManager C) (order : List UUID) :
    List (S3Client C) × ShardedClientManager C :=
  (getAllLoop s.clients order [], s)

/-! ## A reference instance of the library functions

`url.Parse` follows `net/url` of the Go standard library on byte strings (a Lean
character stands for the byte with its code, which is exact on ASCII text): the
control-byte check, the fragment, scheme and query splits, the authority with its
user information, host, port and escapes, and the path escapes.  Error values
carry the message of the inner error.  `minio.New` is a stand-in that binds a
client to any endpoint except the empty one.  The general theorems below hold for
every `Env`; this instance serves concrete evaluations. -/

namespace url

/-- The escaping modes of `net/url`. -/
inductive encoding where
  | encodePath
  | encodePathSegment
  | encodeHost
  | encodeZone
  | encodeUserPassword
  | encodeQueryComponent
  | encodeFragment
  deriving DecidableEq, Repr

/-- `stringContainsCTLByte`: some byte is below space or is DEL. -/
def stringContainsCTLByte (s : List Char) : Bool :=
  s.any (fun b => decide (b.toNat < 32) || decide (b.toNat = 127))

/-- An ASCII letter. -/
def isAlpha (c : Char) : Bool :=
  (decide (97 ≤ c.toNat) && decide (c.toNat ≤ 122)) || (decide (65 ≤ c.toNat) && decide (c.toNat ≤ 90))

/-- An ASCII digit. -/
def isDigit (c : Char) : Bool :=
  decide (48 ≤ c.toNat) && decide (c.toNat ≤ 57)

/-- `ishex`. -/
def ishex (c : Char) : Bool :=
  isDigit c || (decide (97 ≤ c.toNat) && decide (c.toNat ≤ 102)) ||
    (decide (65 ≤ c.toNat) && decide (c.toNat ≤ 70))

/-- `unhex`. -/
def unhex (c : Char) : Nat :=
  if isDigit c then c.toNat - 48
  else if decide (97 ≤ c.toNat) && decide (c.toNat ≤ 102) then c.toNat - 97 + 10
  else if decide (65 ≤ c.toNat) && decide (c.toNat ≤ 70) then c.toNat - 65 + 10
  else 0

/-- `shouldEscape(c, encodeHost)`. -/
def shouldEscapeHost (c : Nat) : Bool :=
  if (decide (97 ≤ c) && decide (c ≤ 122)) || (decide (65 ≤ c) && decide (c ≤ 90)) ||
      (decide (48 ≤ c) && decide (c ≤ 57)) then false
  -- ! $ & ' ( ) * + , ; = : [ ] < > "
  else if c ∈ [33, 36, 38, 39, 40, 41, 42, 43, 44, 59, 61, 58, 91, 93, 60, 62, 34] then false
  -- - _ . ~
  else if c ∈ [45, 95, 46, 126] then false
  else true

/-- The error `EscapeError(s)`. -/
def escapeError (s : List Char) : GoError :=
  GoError.other ("invalid URL escape " ++ String.mk s)

/-- `unescape(s, mode)`: the check of the escapes and the decoding, in one pass.
A decoded byte is the character with that code. -/
def unescape : List Char → encoding → Except GoError (List Char)
  | [], _ => Except.ok []
  | '%' :: a :: b :: rest, mode =>
    if !(ishex a && ishex b) then Except.error (escapeError ['%', a, b])
    else if mode = encoding.encodeHost && decide (unhex a < 8) && !(a = '2' && b = '5') then
      Except.error (escapeError ['%', a, b])
    else if mode = encoding.encodeZone && !(a = '2' && b = '5') &&
        !(unhex a * 16 + unhex b = 32) && shouldEscapeHost (unhex a * 16 + unhex b) then
      Except.error (escapeError ['%', a, b])
    else
      match unescape rest mode with
      | Except.error e => Except.error e
      | Except.ok t => Except.ok (Char.ofNat (unhex a * 16 + unhex b) :: t)
  | c :: rest, mode =>
    if c = '%' then Except.error (escapeError (c :: rest))
    else if (mode = encoding.encodeHost || mode = encoding.encodeZone) && c ≠ '+' &&
        decide (c.toNat < 128) && shouldEscapeHost c.toNat then
      Except.error (GoError.other ("invalid character " ++ String.mk [c] ++ " in host name"))
    else
      match unescape rest mode with
      | Except.error e => Except.error e
      | Except.ok t =>
        Except.ok ((if c = '+' ∧ mode = encoding.encodeQueryComponent then ' ' else c) :: t)

/-- `strings.Cut(s, sep)` for a one-byte separator: the text before and after the
first `sep`, or all of `s` and nothing when `sep` does not occur. -/
def cut (sep : Char) : List Char → List Char × List Char
  | [] => ([], [])
  | c :: rest => if c = sep then ([], rest) else ((cut sep rest).1.cons c, (cut sep rest).2)

/-- `strings.LastIndex(s, sep)` for a one-byte separator. -/
def lastIndex (sep : Char) : List Char → Option Nat
  | [] => none
  | c :: rest =>
    match lastIndex sep rest with
    | some i => some (i + 1)
    | none => if c = sep then some 0 else none

/-- `strings.Index(s, sub)`. -/
def index (sub : List Char) : List Char → Option Nat
  | [] => if sub = [] then some 0 else none
  | c :: rest =>
    if sub.isPrefixOf (c :: rest) then some 0 else (index sub rest).map (fun i => i + 1)

/-- `getScheme`, from byte `i` on; `seen` holds the bytes before `i`. -/
def getSchemeFrom (rawURL : List Char) :
    List Char → List Char → Except GoError (List Char × List Char)
  | _, [] => Except.ok ([], rawURL)
  | seen, c :: rest =>
    if isAlpha c then getSchemeFrom rawURL (seen ++ [c]) rest
    else if isDigit c || c = '+' || c = '-' || c = '.' then
      if seen = [] then Except.ok ([], rawURL) else getSchemeFrom rawURL (seen ++ [c]) rest
    else if c = ':' then
      if seen = [] then Except.error (GoError.other "missing protocol scheme")
      else Except.ok (seen, rest)
    else Except.ok ([], rawURL)

/-- `getScheme`. -/
def getScheme (rawURL : List Char) : Except GoError (List Char × List Char) :=
  getSchemeFrom rawURL [] rawURL

/-- `validOptionalPort`. -/
def validOptionalPort : List Char → Bool
  | [] => true
  | c :: rest => c = ':' && rest.all isDigit

/-- `validUserinfo`. -/
def validUserinfo (s : List Char) : Bool :=
  s.all (fun r => isAlpha r || isDigit r ||
    -- - . _ : ~ ! $ & ' ( ) * + , ; = % @
    decide (r.toNat ∈ [45, 46, 95, 58, 126, 33, 36, 38, 39, 40, 41, 42, 43, 44, 59, 61, 37, 64]))

/-- `parseHost`. -/
def parseHost (host : List Char) : Except GoError (List Char) :=
  if host.head? = some '[' then
    match lastIndex ']' host with
    | none => Except.error (GoError.other "missing ']' in host")
    | some i =>
      if !validOptionalPort (host.drop (i + 1)) then
        Except.error (GoError.other
          ("invalid port " ++ String.mk (host.drop (i + 1)) ++ " after host"))
      else
        match index "%25".data (host.take i) with
        | some zone =>
          match unescape (host.take zone) encoding.encodeHost with
          | Except.error e => Except.error e
          | Except.ok host1 =>
            match unescape ((host.take i).drop zone) encoding.encodeZone with
            | Except.error e => Except.error e
            | Except.ok host2 =>
              match unescape (host.drop i) encoding.encodeHost with
              | Except.error e => Except.error e
              | Except.ok host3 => Except.ok (host1 ++ host2 ++ host3)
        | none => unescape host encoding.encodeHost
  else
    match lastIndex ':' host with
    | some i =>
      if !validOptionalPort (host.drop i) then
        Except.error (GoError.other ("invalid port " ++ String.mk (host.drop i) ++ " after host"))
      else unescape host encoding.encodeHost
    | none => unescape host encoding.encodeHost

/-- `parseAuthority`, as far as the host and the error go (the user information is
checked and dropped). -/
def parseAuthority (authority : List Char) : Except GoError (List Char) :=
  match lastIndex '@' authority with
  | none => parseHost authority
  | some i =>
    match parseHost (authority.drop (i + 1)) with
    | Except.error e => Except.error e
    | Except.ok host =>
      if !validUserinfo (authority.take i) then
        Except.error (GoError.other "net/url: invalid userinfo")
      else
        match unescape (cut ':' (authority.take i)).1 encoding.encodeUserPassword with
        | Except.error e => Except.error e
        | Except.ok _ =>
          match unescape (cut ':' (authority.take i)).2 encoding.encodeUserPassword with
          | Except.error e => Except.error e
          | Except.ok _ => Except.ok host

/-- ASCII lower case, `strings.ToLower` on a scheme. -/
def toLower (s : List Char) : List Char :=
  s.map (fun c => if decide (65 ≤ c.toNat) && decide (c.toNat ≤ 90) then Char.ofNat (c.toNat + 32) else c)

/-- The unexported `parse(rawURL, viaRequest)` at `viaRequest = false`. -/
def parse (rawURL : List Char) : Except GoError URL :=
  if stringContainsCTLByte rawURL then
    Except.error (GoError.other "net/url: invalid control character in URL")
  else if rawURL = ['*'] then
    Except.ok { Scheme := "", Opaque := "", Host := "", Path := "*", RawQuery := "", Fragment := "" }
  else
    match getScheme rawURL with
    | Except.error e => Except.error e
    | Except.ok (scheme, rest0) =>
      let scheme := toLower scheme
      let (rest, rawQuery) :=
        if rest0.getLast? = some '?' && rest0.count '?' = 1 then (rest0.dropLast, [])
        else cut '?' rest0
      if rest.head? ≠ some '/' ∧ scheme ≠ [] then
        Except.ok { Scheme := String.mk scheme, Opaque := String.mk rest, Host := "", Path := "",
                    RawQuery := String.mk rawQuery, Fragment := "" }
      else if rest.head? ≠ some '/' ∧ ':' ∈ (cut '/' rest).1 then
        Except.error (GoError.other "first path segment in URL cannot contain colon")
      else
        let hasAuthority : Bool :=
          (scheme ≠ [] || !"///".data.isPrefixOf rest) && "//".data.isPrefixOf rest
        let authority := if hasAuthority then (cut '/' (rest.drop 2)).1 else []
        let path := if hasAuthority then (rest.drop 2).drop authority.length else rest
        match (if hasAuthority then parseAuthority authority else Except.ok []) with
        | Except.error e => Except.error e
        | Except.ok host =>
          match unescape path encoding.encodePath with
          | Except.error e => Except.error e
          | Except.ok p =>
            Except.ok { Scheme := String.mk scheme, Opaque := "", Host := String.mk host,
                        Path := String.mk p, RawQuery := String.mk rawQuery, Fragment := "" }

/-- A model of the function `url.Parse` of the Go standard library (`net/url`):
the fragment is cut off and unescaped, the rest goes through `parse`. -/
def Parse (rawURL : String) : Except GoError URL :=
  match parse (cut '#' rawURL.data).1 with
  | Except.error e => Except.error e
  | Except.ok u =>
    if (cut '#' rawURL.data).2 = [] then Except.ok u
    else
      match unescape (cut '#' rawURL.data).2 encoding.encodeFragment with
      | Except.error e => Except.error e
      | Except.ok f => Except.ok { u with Fragment := String.mk f }

end url

namespace minio

/-- A client handle as made by `minio.New`: the endpoint and the options it was
made with. -/
structure Client where
  endpoint : String
  opts : Options
  deriving DecidableEq, Repr

/-- A stand-in for `minio.New(endpoint, opts)`: it rejects the empty endpoint and
binds a client to any other. -/
def New (endpoint : String) (opts : Options) : Except GoError Client :=
  if endpoint = "" then
    Except.error (GoError.other "Endpoint:  does not follow ip address or domain name standards.")
  else
    Except.ok { endpoint := endpoint, opts := opts }

end minio

/-- The reference instance of the library functions. -/
def goEnv : Env minio.Client :=
  { urlParse := url.Parse, minioNew := minio.New }

/-! ## Notions used in the statements -/

/-- The body of the loop of `Load` on one record: the client it stores under the
record's identifier, or the error it returns with. -/
def buildClient {C : Type} (env : Env C) (config : Config) (bucket : Bucket) :
    Except GoError (S3Client C) :=
  match extractHost env bucket.EndpointUrl with
  | (_, some err) => Except.error err
  | (host, none) =>
    match env.minioNew host (clientOptions config) with
    | Except.error err => Except.error err
    | Except.ok m => Except.ok (NewS3Client m bucket.Name)

/-- The last record of a listing, in listing order, that has the identifier `id`. -/
def lastWithId : List Bucket → UUID → Option Bucket
  | [], _ => none
  | bucket :: rest, id =>
    match lastWithId rest id with
    | some later => some later
    | none => if bucket.Id = id then some bucket else none

/-- The registry after a sequence of `Load` calls, one per outcome of the
transactional listing, starting from `s`. -/
def runLoads {C : Type} (env : Env C) (s : ShardedClientManager C) :
    List (Except GoError (List Bucket)) → ShardedClientManager C
  | [] => s
  | tx :: rest => runLoads env (Load env s tx).state rest

/-- The endpoints on which a trace calls `extractHost`, in order. -/
def extractCalls : List Event → List String
  | [] => []
  | Event.extractHost endpoint :: rest => endpoint :: extractCalls rest
  | _ :: rest => extractCalls rest

/-- The hosts on which a trace calls `minio.New`, in order. -/
def minioCalls : List Event → List String
  | [] => []
  | Event.minioNew host :: rest => host :: minioCalls rest
  | _ :: rest => minioCalls rest

/-- Whether an event is a step of a client construction: the host extraction or
the transport initialisation. -/
def Event.isConstruction : Event → Bool
  | Event.extractHost _ => true
  | Event.minioNew _ => true
  | _ => false

/-- Whether an event is the metadata fetch or an operation on the mutex. -/
def Event.isFetchOrMutex : Event → Bool
  | Event.txListBuckets => true
  | Event.lock => true
  | Event.unlock => true
  | _ => false

/-- Whether every construction step of a trace comes before its acquisitions of
the exclusive lock: no construction step follows a `lock` event. -/
def constructsBeforeLock : List Event → Bool
  | [] => true
  | Event.lock :: rest => rest.all (fun e => !e.isConstruction) && constructsBeforeLock rest
  | _ :: rest => constructsBeforeLock rest

/-- The insertions of a trace, in order: identifier and bucket name. -/
def setCalls : List Event → List (UUID × String)
  | [] => []
  | Event.setClient id name :: rest => (id, name) :: setCalls rest
  | _ :: rest => setCalls rest

/-! ## Sample data for concrete evaluations -/

/-- A sample configuration. -/
def sampleConfig : Config :=
  { AccessKey := "access", SecretKey := "secret", Secure := true }

/-- A record with a full URL as endpoint. -/
def bucketA : Bucket :=
  { Id := 1, Name := "logs-a", EndpointUrl := "https://s3.example.com:9000" }

/-- A record with a bare host and port as endpoint. -/
def bucketB : Bucket :=
  { Id := 2, Name := "logs-b", EndpointUrl := "minio.internal:9000" }

/-- A record with a URL without port as endpoint. -/
def bucketC : Bucket :=
  { Id := 3, Name := "logs-c", EndpointUrl := "http://minio" }

/-- A record whose endpoint has the scheme and is malformed: the bracket of the
IP literal is not closed. -/
def bucketBad : Bucket :=
  { Id := 4, Name := "logs-d", EndpointUrl := "http://[::1" }

/-- The registry after a first, successful `Load` of the records A and B. -/
def loadedAB : ShardedClientManager minio.Client :=
  (Load goEnv (NewShardedClientManager sampleConfig) (Except.ok [bucketA, bucketB])).state

/-! ## The loop of `Load` -/

section loop

variable {C : Type}

/-- The loop body succeeds on a record exactly when `extractHost` returns a nil
error and `minio.New` accepts the extracted host; the client then packs the
transport with the record's bucket name. -/
theorem buildClient_eq_ok_iff (env : Env C) (config : Config) (bucket : Bucket)
    (c : S3Client C) :
    buildClient env config bucket = Except.ok c ↔
      (extractHost env bucket.EndpointUrl).2 = none ∧
      ∃ m, env.minioNew (extractHost env bucket.EndpointUrl).1 (clientOptions config) =
          Except.ok m ∧ c = NewS3Client m bucket.Name := by
  unfold buildClient
  rcases hx : extractHost env bucket.EndpointUrl with ⟨host, _ | err⟩
  · simp only [true_and]
    cases hm : env.minioNew host (clientOptions config) with
    | error e => simp
    | ok m => simp [eq_comm]
  · simp

/-- The loop body fails on a record with the error `e` exactly when `extractHost`
returns `e`, or `extractHost` returns a nil error and `minio.New` returns `e`. -/
theorem buildClient_eq_error_iff (env : Env C) (config : Config) (bucket : Bucket)
    (e : GoError) :
    buildClient env config bucket = Except.error e ↔
      (extractHost env bucket.EndpointUrl).2 = some e ∨
      ((extractHost env bucket.EndpointUrl).2 = none ∧
        env.minioNew (extractHost env bucket.EndpointUrl).1 (clientOptions config) =
          Except.error e) := by
  unfold buildClient
  rcases hx : extractHost env bucket.EndpointUrl with ⟨host, _ | err⟩
  · simp only [true_and, reduceCtorEq, false_or]
    cases hm : env.minioNew host (clientOptions config) with
    | error e2 => simp
    | ok m => simp
  · simp

theorem loadLoop_cons_ok (env : Env C) (config : Config) (bucket : Bucket) (rest : List Bucket)
    (clients : ClientMap C) (c : S3Client C) (h : buildClient env config bucket = Except.ok c) :
    loadLoop env config (bucket :: rest) clients =
      ((loadLoop env config rest (clients.insert bucket.Id c)).1,
       (loadLoop env config rest (clients.insert bucket.Id c)).2.1,
       Event.extractHost bucket.EndpointUrl ::
         Event.minioNew (extractHost env bucket.EndpointUrl).1 ::
         Event.setClient bucket.Id bucket.Name ::
         (loadLoop env config rest (clients.insert bucket.Id c)).2.2) := by
  unfold buildClient at h
  rw [loadLoop]
  rcases hx : extractHost env bucket.EndpointUrl with ⟨host, _ | err⟩
  · rw [hx] at h
    simp only at h ⊢
    cases hm : env.minioNew host (clientOptions config) with
    | error e => rw [hm] at h; simp at h
    | ok m =>
      rw [hm] at h
      simp only [Except.ok.injEq] at h
      subst h
      rfl
  · rw [hx] at h
    simp at h

theorem loadLoop_cons_error (env : Env C) (config : Config) (bucket : Bucket)
    (rest : List Bucket) (clients : ClientMap C) (e : GoError)
    (h : buildClient env config bucket = Except.error e) :
    (loadLoop env config (bucket :: rest) clients).1 = clients ∧
    (loadLoop env config (bucket :: rest) clients).2.1 = some e ∧
    extractCalls (loadLoop env config (bucket :: rest) clients).2.2 = [bucket.EndpointUrl] := by
  unfold buildClient at h
  rw [loadLoop]
  rcases hx : extractHost env bucket.EndpointUrl with ⟨host, _ | err⟩
  · rw [hx] at h
    simp only at h ⊢
    cases hm : env.minioNew host (clientOptions config) with
    | error e2 =>
      rw [hm] at h
      simp only [Except.error.injEq] at h
      subst h
      simp [extractCalls]
    | ok m => rw [hm] at h; simp at h
  · rw [hx] at h
    simp only [Except.error.injEq] at h
    subst h
    simp [extractCalls]

end loop

theorem lastWithId_some {buckets : List Bucket} {id : UUID} {r : Bucket}
    (h : lastWithId buckets id = some r) : r ∈ buckets ∧ r.Id = id := by
  induction buckets with
  | nil => simp [lastWithId] at h
  | cons b rest ih =>
    rw [lastWithId] at h
    cases hl : lastWithId rest id with
    | some later =>
      rw [hl] at h
      simp only [Option.some.injEq] at h
      subst h
      exact ⟨List.mem_cons_of_mem _ (ih hl).1, (ih hl).2⟩
    | none =>
      rw [hl] at h
      by_cases hb : b.Id = id
      · simp only [hb, if_true, Option.some.injEq] at h
        subst h
        exact ⟨List.mem_cons_self _ _, hb⟩
      · simp [hb] at h

theorem lastWithId_eq_none {buckets : List Bucket} {id : UUID} :
    lastWithId buckets id = none ↔ ∀ b ∈ buckets, b.Id ≠ id := by
  induction buckets with
  | nil => simp [lastWithId]
  | cons b rest ih =>
    rw [lastWithId]
    cases hl : lastWithId rest id with
    | some later =>
      have hmem := lastWithId_some hl
      simp only [false_iff, reduceCtorEq]
      intro hall
      exact hall later (List.mem_cons_of_mem _ hmem.1) hmem.2
    | none =>
      have hrest := ih.mp hl
      by_cases hb : b.Id = id
      · simp [hb]
      · simp only [hb, if_false, true_iff]
        intro x hx
        rcases List.mem_cons.mp hx with rfl | hx
        · exact hb
        · exact hrest x hx

/-- The recursive `lastWithId` is the last element of the sublist of the records
with the identifier. -/
theorem lastWithId_eq_getLast? (buckets : List Bucket) (id : UUID) :
    lastWithId buckets id = (buckets.filter (fun b => decide (b.Id = id))).getLast? := by
  induction buckets with
  | nil => rfl
  | cons b rest ih =>
    rw [lastWithId, ih]
    by_cases hb : b.Id = id
    · rw [List.filter_cons_of_pos (by simpa using hb)]
      cases hf : rest.filter (fun b => decide (b.Id = id)) with
      | nil => simp [hb]
      | cons x xs =>
        obtain ⟨y, hy⟩ : ∃ y, (x :: xs).getLast? = some y :=
          ⟨_, List.getLast?_eq_getLast (x :: xs) (List.cons_ne_nil x xs)⟩
        simp [List.getLast?_cons_cons, hy]
    · rw [List.filter_cons_of_neg (by simpa using hb)]
      cases hf : (rest.filter (fun b => decide (b.Id = id))).getLast? with
      | none => simp [hb]
      | some x => simp

section loopInduction

variable {C : Type}

theorem lookup_insert_ite (clients : ClientMap C) (k id : UUID) (c : S3Client C) :
    (clients.insert k c).lookup id = if k = id then some c else clients.lookup id := by
  by_cases h : k = id
  · subst h
    simp [AList.lookup_insert]
  · rw [if_neg h]
    exact AList.lookup_insert_ne (fun h2 => h h2.symm)

theorem loadLoop_of_all_ok (env : Env C) (config : Config) :
    ∀ (buckets : List Bucket) (clients : ClientMap C),
      (∀ b ∈ buckets, ∃ c, buildClient env config b = Except.ok c) →
      (loadLoop env config buckets clients).2.1 = none ∧
      ∀ id, (loadLoop env config buckets clients).1.lookup id =
        match lastWithId buckets id with
        | some r => (buildClient env config r).toOption
        | none => clients.lookup id := by
  intro buckets
  induction buckets with
  | nil => intro clients _; simp [loadLoop, lastWithId]
  | cons b rest ih =>
    intro clients hall
    obtain ⟨c, hc⟩ := hall b (List.mem_cons_self _ _)
    have hrest := ih (clients.insert b.Id c) (fun x hx => hall x (List.mem_cons_of_mem _ hx))
    rw [loadLoop_cons_ok env config b rest clients c hc]
    refine ⟨hrest.1, fun id => ?_⟩
    simp only
    rw [hrest.2 id, lastWithId]
    cases hl : lastWithId rest id with
    | some later => rfl
    | none =>
      simp only
      rw [lookup_insert_ite]
      by_cases hb : b.Id = id
      · simp [hb, hc, Except.toOption]
      · simp [hb]

theorem loadLoop_lookup_none (env : Env C) (config : Config) (id : UUID) :
    ∀ (buckets : List Bucket) (clients : ClientMap C),
      clients.lookup id = none → (∀ b ∈ buckets, b.Id ≠ id) →
      (loadLoop env config buckets clients).1.lookup id = none := by
  intro buckets
  induction buckets with
  | nil => intro clients h _; simpa [loadLoop] using h
  | cons b rest ih =>
    intro clients h hall
    cases hb : buildClient env config b with
    | error e => rw [(loadLoop_cons_error env config b rest clients e hb).1]; exact h
    | ok c =>
      rw [loadLoop_cons_ok env config b rest clients c hb]
      apply ih
      · rw [lookup_insert_ite, if_neg (hall b (List.mem_cons_self _ _))]
        exact h
      · exact fun x hx => hall x (List.mem_cons_of_mem _ hx)

theorem loadLoop_append_error (env : Env C) (config : Config) (b : Bucket) (post : List Bucket)
    (e : GoError) (hb : buildClient env config b = Except.error e) :
    ∀ (pre : List Bucket) (clients : ClientMap C),
      (∀ x ∈ pre, ∃ c, buildClient env config x = Except.ok c) →
      (loadLoop env config (pre ++ b :: post) clients).1 = (loadLoop env config pre clients).1 ∧
      (loadLoop env config (pre ++ b :: post) clients).2.1 = some e ∧
      extractCalls (loadLoop env config (pre ++ b :: post) clients).2.2 =
        (pre ++ [b]).map Bucket.EndpointUrl := by
  intro pre
  induction pre with
  | nil =>
    intro clients _
    have h := loadLoop_cons_error env config b post clients e hb
    simpa [loadLoop] using h
  | cons x rest ih =>
    intro clients hall
    obtain ⟨c, hc⟩ := hall x (List.mem_cons_self _ _)
    have hrest := ih (clients.insert x.Id c) (fun y hy => hall y (List.mem_cons_of_mem _ hy))
    rw [List.cons_append, loadLoop_cons_ok env config x _ clients c hc,
      loadLoop_cons_ok env config x rest clients c hc]
    refine ⟨hrest.1, hrest.2.1, ?_⟩
    simp only [extractCalls, List.cons_append, List.map_cons]
    rw [hrest.2.2]

end loopInduction

/-! ## Facts about `Load`, `Get` and `GetAll` used by several results -/

section registry

variable {C : Type}

theorem buildClient_bucketName (env : Env C) (config : Config) (bucket : Bucket)
    (c : S3Client C) (h : buildClient env config bucket = Except.ok c) :
    c.bucketName = bucket.Name := by
  unfold buildClient at h
  rcases hx : extractHost env bucket.EndpointUrl with ⟨host, _ | err⟩
  · rw [hx] at h
    simp only at h
    cases hm : env.minioNew host (clientOptions config) with
    | error e => rw [hm] at h; simp at h
    | ok m =>
      rw [hm] at h
      simp only [Except.ok.injEq] at h
      subst h
      rfl
  · rw [hx] at h
    simp at h

theorem Get_eq_of_lookup (s : ShardedClientManager C) (id : UUID) :
    Get s id =
      match s.clients.lookup id with
      | none => (none, some ErrClientNotFound)
      | some client => (some client, none) := rfl

theorem Get_of_lookup_none (s : ShardedClientManager C) (id : UUID)
    (h : s.clients.lookup id = none) : Get s id = (none, some ErrClientNotFound) := by
  rw [Get_eq_of_lookup, h]

theorem Get_of_lookup_some (s : ShardedClientManager C) (id : UUID) (c : S3Client C)
    (h : s.clients.lookup id = some c) : Get s id = (some c, none) := by
  rw [Get_eq_of_lookup, h]

theorem Load_ok_clients (env : Env C) (s : ShardedClientManager C) (buckets : List Bucket) :
    (Load env s (Except.ok buckets)).state.clients = (loadLoop env s.config buckets ∅).1 ∧
    (Load env s (Except.ok buckets)).err = (loadLoop env s.config buckets ∅).2.1 ∧
    (Load env s (Except.ok buckets)).state.config = s.config ∧
    (Load env s (Except.ok buckets)).trace =
      Event.txListBuckets :: Event.lock :: Event.makeClients ::
        ((loadLoop env s.config buckets ∅).2.2 ++ [Event.unlock]) :=
  ⟨rfl, rfl, rfl, rfl⟩

theorem Load_lookup_none (env : Env C) (s : ShardedClientManager C)
    (tx : Except GoError (List Bucket)) (id : UUID) (h : s.clients.lookup id = none)
    (hid : ∀ bs, tx = Except.ok bs → ∀ b ∈ bs, b.Id ≠ id) :
    (Load env s tx).state.clients.lookup id = none := by
  cases tx with
  | error e => exact h
  | ok bs =>
    rw [(Load_ok_clients env s bs).1]
    exact loadLoop_lookup_none env s.config id bs ∅ (AList.lookup_empty id) (hid bs rfl)

theorem runLoads_lookup_none (env : Env C) (id : UUID) :
    ∀ (txs : List (Except GoError (List Bucket))) (s : ShardedClientManager C),
      s.clients.lookup id = none →
      (∀ tx ∈ txs, ∀ bs, tx = Except.ok bs → ∀ b ∈ bs, b.Id ≠ id) →
      (runLoads env s txs).clients.lookup id = none := by
  intro txs
  induction txs with
  | nil => intro s h _; exact h
  | cons tx rest ih =>
    intro s h hall
    rw [runLoads]
    apply ih
    · exact Load_lookup_none env s tx id h (hall tx (List.mem_cons_self _ _))
    · exact fun t ht => hall t (List.mem_cons_of_mem _ ht)

theorem getAllLoop_map_some (m : ClientMap C) :
    ∀ (order : List UUID) (acc : List (S3Client C)), (∀ k ∈ order, k ∈ m.keys) →
      (getAllLoop m order acc).map some = acc.map some ++ order.map (fun k => m.lookup k) := by
  intro order
  induction order with
  | nil => intro acc _; simp [getAllLoop]
  | cons k rest ih =>
    intro acc hk
    have hmem : k ∈ m := AList.mem_keys.mpr (hk k (List.mem_cons_self _ _))
    have hsome := AList.lookup_isSome.mpr hmem
    rw [getAllLoop]
    cases hl : m.lookup k with
    | none => rw [hl] at hsome; simp at hsome
    | some c =>
      simp only
      rw [ih (acc ++ [c]) (fun x hx => hk x (List.mem_cons_of_mem _ hx))]
      simp [hl]

end registry

theorem extractCalls_append (xs ys : List Event) :
    extractCalls (xs ++ ys) = extractCalls xs ++ extractCalls ys := by
  induction xs with
  | nil => rfl
  | cons x rest ih => cases x <;> simp [extractCalls, ih]

theorem minioCalls_append (xs ys : List Event) :
    minioCalls (xs ++ ys) = minioCalls xs ++ minioCalls ys := by
  induction xs with
  | nil => rfl
  | cons x rest ih => cases x <;> simp [minioCalls, ih]

theorem setCalls_append (xs ys : List Event) :
    setCalls (xs ++ ys) = setCalls xs ++ setCalls ys := by
  induction xs with
  | nil => rfl
  | cons x rest ih => cases x <;> simp [setCalls, ih]

theorem loadLoop_trace_no_mutex {C : Type} (env : Env C) (config : Config) :
    ∀ (buckets : List Bucket) (clients : ClientMap C),
      ∀ ev ∈ (loadLoop env config buckets clients).2.2, ev.isFetchOrMutex = false := by
  intro buckets
  induction buckets with
  | nil => intro clients ev hev; simp [loadLoop] at hev
  | cons b rest ih =>
    intro clients ev hev
    rw [loadLoop] at hev
    rcases hx : extractHost env b.EndpointUrl with ⟨host, _ | err⟩
    · rw [hx] at hev
      simp only at hev
      cases hm : env.minioNew host (clientOptions config) with
      | error e =>
        rw [hm] at hev
        simp only [List.mem_cons, List.mem_singleton, List.not_mem_nil, or_false] at hev
        rcases hev with rfl | rfl <;> rfl
      | ok m =>
        rw [hm] at hev
        simp only [List.mem_cons] at hev
        rcases hev with rfl | rfl | rfl | hev
        · rfl
        · rfl
        · rfl
        · exact ih _ ev hev
    · rw [hx] at hev
      simp only [List.mem_singleton] at hev
      subst hev
      rfl

theorem loadLoop_setCalls_of_ok {C : Type} (env : Env C) (config : Config) :
    ∀ (buckets : List Bucket) (clients : ClientMap C),
      (loadLoop env config buckets clients).2.1 = none →
      setCalls (loadLoop env config buckets clients).2.2 =
        buckets.map (fun b => (b.Id, b.Name)) := by
  intro buckets
  induction buckets with
  | nil => intro clients _; simp [loadLoop, setCalls]
  | cons b rest ih =>
    intro clients h
    cases hb : buildClient env config b with
    | error e =>
      rw [(loadLoop_cons_error env config b rest clients e hb).2.1] at h
      simp at h
    | ok c =>
      rw [loadLoop_cons_ok env config b rest clients c hb] at h ⊢
      simp only [setCalls, List.map_cons]
      rw [ih _ h]

/-! ## The claims -/

/-- C1, evaluated at a failing input.  The registry holds the records A (id 1) and
B (id 2).  A `Load` whose listing is C (id 3) followed by a record with the
malformed endpoint `http://[::1` returns the parse error, and afterwards the
mapping is not the prior one: the prior entries A and B are gone, and C, a
record of the failed batch, is served. -/
theorem Load_failure_replaces_prior_mapping :
    (Get loadedAB 1).2 = none ∧ (Get loadedAB 2).2 = none ∧
    (Load goEnv loadedAB (Except.ok [bucketC, bucketBad])).err =
      some (GoError.other "missing ']' in host") ∧
    Get (Load goEnv loadedAB (Except.ok [bucketC, bucketBad])).state 1 =
      (none, some ErrClientNotFound) ∧
    Get (Load goEnv loadedAB (Except.ok [bucketC, bucketBad])).state 2 =
      (none, some ErrClientNotFound) ∧
    (Get (Load goEnv loadedAB (Except.ok [bucketC, bucketBad])).state 3).2 = none ∧
    loadedAB.clients.keys = [2, 1] ∧
    (Load goEnv loadedAB (Except.ok [bucketC, bucketBad])).state.clients.keys = [3] := by
  decide

/-- C2: when the host extraction and the client construction succeed for every
record of the listing, `Load` returns nil and replaces the mapping wholesale,
whatever it was before: `Get(id)` succeeds exactly when some record of the
listing has the identifier `id`; it then returns the client built from the last
record with that identifier, which carries that record's bucket name; and every
identifier that no record of the listing has fails with `ErrClientNotFound`. -/
theorem Load_success_replaces_mapping {C : Type} (env : Env C) (s : ShardedClientManager C)
    (buckets : List Bucket)
    (hall : ∀ b ∈ buckets, ∃ c, buildClient env s.config b = Except.ok c) :
    (Load env s (Except.ok buckets)).err = none ∧
    (∀ id, (Get (Load env s (Except.ok buckets)).state id).2 = none ↔
      ∃ b ∈ buckets, b.Id = id) ∧
    (∀ id r, lastWithId buckets id = some r →
      ∃ c, buildClient env s.config r = Except.ok c ∧ c.bucketName = r.Name ∧
        Get (Load env s (Except.ok buckets)).state id = (some c, none)) ∧
    (∀ id, (∀ b ∈ buckets, b.Id ≠ id) →
      Get (Load env s (Except.ok buckets)).state id = (none, some ErrClientNotFound)) := by
  have hloop := loadLoop_of_all_ok env s.config buckets ∅ hall
  have hsome : ∀ id r, lastWithId buckets id = some r →
      ∃ c, buildClient env s.config r = Except.ok c ∧ c.bucketName = r.Name ∧
        Get (Load env s (Except.ok buckets)).state id = (some c, none) := by
    intro id r hr
    obtain ⟨c, hc⟩ := hall r (lastWithId_some hr).1
    refine ⟨c, hc, buildClient_bucketName env s.config r c hc, ?_⟩
    apply Get_of_lookup_some
    rw [(Load_ok_clients env s buckets).1, hloop.2 id, hr]
    simp [hc, Except.toOption]
  have hnone : ∀ id, (∀ b ∈ buckets, b.Id ≠ id) →
      Get (Load env s (Except.ok buckets)).state id = (none, some ErrClientNotFound) := by
    intro id hid
    apply Get_of_lookup_none
    rw [(Load_ok_clients env s buckets).1, hloop.2 id, lastWithId_eq_none.mpr hid]
    exact AList.lookup_empty id
  refine ⟨(Load_ok_clients env s buckets).2.1.trans hloop.1, fun id => ?_, hsome, hnone⟩
  cases hl : lastWithId buckets id with
  | some r =>
    obtain ⟨c, -, -, hg⟩ := hsome id r hl
    rw [hg]
    exact ⟨fun _ => ⟨r, (lastWithId_some hl).1, (lastWithId_some hl).2⟩, fun _ => rfl⟩
  | none =>
    have hid := lastWithId_eq_none.mp hl
    rw [hnone id hid]
    constructor
    · intro h
      simp at h
    · rintro ⟨b, hb, hbid⟩
      exact absurd hbid (hid b hb)

/-- C2 at the spec's example: after a first load of {A, B}, a reload with the
listing {A, C} succeeds; `Get(B)` then fails with `ErrClientNotFound` and
`Get(C)` returns a client carrying the bucket name of C. -/
theorem Load_success_replaces_mapping_witness :
    (∀ b ∈ [bucketA, bucketC], ∃ c, buildClient goEnv loadedAB.config b = Except.ok c) ∧
    (Load goEnv loadedAB (Except.ok [bucketA, bucketC])).err = none ∧
    Get (Load goEnv loadedAB (Except.ok [bucketA, bucketC])).state 2 =
      (none, some ErrClientNotFound) ∧
    (∃ c, c.bucketName = "logs-c" ∧
      Get (Load goEnv loadedAB (Except.ok [bucketA, bucketC])).state 3 = (some c, none)) := by
  have hall : ∀ b ∈ [bucketA, bucketC], ∃ c, buildClient goEnv loadedAB.config b = Except.ok c := by
    intro b hb
    simp only [List.mem_cons, List.mem_singleton, List.not_mem_nil, or_false] at hb
    rcases hb with rfl | rfl
    · exact ⟨_, rfl⟩
    · exact ⟨_, rfl⟩
  have h := Load_success_replaces_mapping goEnv loadedAB [bucketA, bucketC] hall
  refine ⟨hall, h.1, h.2.2.2 2 (by decide), ?_⟩
  obtain ⟨c, -, hname, hget⟩ := h.2.2.1 3 bucketC (by decide)
  exact ⟨c, hname, hget⟩

/-- C3: when the transactional listing fails with the error `e`, `Load` returns
`e` itself, leaves the registry as it was, and makes no call of `extractHost` or
`minio.New`: its only event is the listing. -/
theorem Load_listing_error {C : Type} (env : Env C) (s : ShardedClientManager C) (e : GoError) :
    (Load env s (Except.error e)).err = some e ∧
    (Load env s (Except.error e)).state = s ∧
    (Load env s (Except.error e)).trace = [Event.txListBuckets] ∧
    minioCalls (Load env s (Except.error e)).trace = [] ∧
    extractCalls (Load env s (Except.error e)).trace = [] :=
  ⟨rfl, rfl, rfl, rfl, rfl⟩

/-- C4: starting from a newly constructed registry, after any finite sequence of
`Load` calls, failed or successful, none of whose listings contains the
identifier `id`, `Get(id)` returns a nil client and `ErrClientNotFound`; and
every `Get` on the newly constructed registry does. -/
theorem Get_not_found_after_loads {C : Type} (env : Env C) (config : Config)
    (txs : List (Except GoError (List Bucket))) (id : UUID)
    (hid : ∀ tx ∈ txs, ∀ bs, tx = Except.ok bs → ∀ b ∈ bs, b.Id ≠ id) :
    Get (runLoads env (NewShardedClientManager config) txs) id = (none, some ErrClientNotFound) ∧
    ∀ id2, Get (NewShardedClientManager config : ShardedClientManager C) id2 =
      (none, some ErrClientNotFound) := by
  constructor
  · apply Get_of_lookup_none
    exact runLoads_lookup_none env id txs _ (AList.lookup_empty id) hid
  · intro id2
    exact Get_of_lookup_none _ id2 (AList.lookup_empty id2)

/-- C4 at a concrete run: a successful load of {A, B}, a failed listing, a load
that fails at a malformed endpoint and a successful load of {C}; identifier 7 is
in none of the listings and is not found. -/
theorem Get_not_found_after_loads_witness :
    (∀ tx ∈ [Except.ok [bucketA, bucketB], Except.error (GoError.other "tx aborted"),
        Except.ok [bucketC, bucketBad], Except.ok [bucketC]],
      ∀ bs, tx = Except.ok bs → ∀ b ∈ bs, b.Id ≠ (7 : UUID)) ∧
    Get (runLoads goEnv (NewShardedClientManager sampleConfig)
      [Except.ok [bucketA, bucketB], Except.error (GoError.other "tx aborted"),
        Except.ok [bucketC, bucketBad], Except.ok [bucketC]]) 7 =
      (none, some ErrClientNotFound) := by
  have hid : ∀ tx ∈ [Except.ok [bucketA, bucketB], Except.error (GoError.other "tx aborted"),
        Except.ok [bucketC, bucketBad], Except.ok [bucketC]],
      ∀ bs, tx = Except.ok bs → ∀ b ∈ bs, b.Id ≠ (7 : UUID) := by
    intro tx htx bs hbs b hb
    simp only [List.mem_cons, List.mem_singleton, List.not_mem_nil, or_false] at htx
    rcases htx with rfl | rfl | rfl | rfl
    · cases hbs
      simp only [List.mem_cons, List.mem_singleton, List.not_mem_nil, or_false] at hb
      rcases hb with rfl | rfl <;> decide
    · cases hbs
    · cases hbs
      simp only [List.mem_cons, List.mem_singleton, List.not_mem_nil, or_false] at hb
      rcases hb with rfl | rfl <;> decide
    · cases hbs
      simp only [List.mem_cons, List.mem_singleton, List.not_mem_nil, or_false] at hb
      rcases hb with rfl
      decide
  exact ⟨hid, (Get_not_found_after_loads goEnv sampleConfig _ 7 hid).1⟩

/-- C5: for every registry state and every order in which the map iteration hands
out the keys (each key once), `GetAll` returns as many clients as the mapping has
keys, the returned sequence is a rearrangement of the clients the keys map to,
the registry is left as it was, and the result is empty when the mapping has no
key, in particular for a newly constructed registry. -/
theorem GetAll_snapshot {C : Type} (s : ShardedClientManager C) (order : List UUID)
    (h : order.Perm s.clients.keys) :
    (GetAll s order).1.length = s.clients.keys.length ∧
    ((GetAll s order).1.map some).Perm (s.clients.keys.map (fun k => s.clients.lookup k)) ∧
    (GetAll s order).2 = s ∧
    (s.clients.keys = [] → (GetAll s order).1 = []) ∧
    (∀ config, s = NewShardedClientManager config → (GetAll s order).1 = []) := by
  have hm : (GetAll s order).1.map some = order.map (fun k => s.clients.lookup k) := by
    have := getAllLoop_map_some s.clients order [] (fun k hk => h.subset hk)
    simpa [GetAll] using this
  have hlen : (GetAll s order).1.length = s.clients.keys.length := by
    have := congrArg List.length hm
    simp only [List.length_map] at this
    rw [this, h.length_eq]
  have hempty : s.clients.keys = [] → (GetAll s order).1 = [] := by
    intro hk
    rw [hk] at hlen
    exact List.length_eq_zero.mp hlen
  refine ⟨hlen, ?_, rfl, hempty, ?_⟩
  · rw [hm]
    exact h.map _
  · intro config hs
    apply hempty
    rw [hs]
    rfl

/-- C5 at a concrete registry: with the records A and B loaded and the iteration
order 1, 2, `GetAll` returns the two clients in that order and leaves the
registry as it was. -/
theorem GetAll_snapshot_witness :
    ([1, 2] : List UUID).Perm loadedAB.clients.keys ∧
    (GetAll loadedAB [1, 2]).1.length = 2 ∧
    (GetAll loadedAB [1, 2]).1.map S3Client.bucketName = ["logs-a", "logs-b"] ∧
    ((GetAll loadedAB [1, 2]).1.map some).Perm
      (loadedAB.clients.keys.map (fun k => loadedAB.clients.lookup k)) := by
  have hperm : ([1, 2] : List UUID).Perm loadedAB.clients.keys := List.Perm.swap 2 1 []
  have h := GetAll_snapshot loadedAB [1, 2] hperm
  exact ⟨hperm, h.1, by decide, h.2.1⟩

/-- C6: for an endpoint that begins with `https://` or `http://`, `extractHost`
calls `url.Parse` on it: when the parse succeeds it returns the host component
of the parsed URL and a nil error, and when the parse fails it returns the empty
string and the parse error. -/
theorem extractHost_scheme {C : Type} (env : Env C) (endpoint : String)
    (h : HasPrefix endpoint "https://" = true ∨ HasPrefix endpoint "http://" = true) :
    (∀ u, env.urlParse endpoint = Except.ok u → extractHost env endpoint = (u.Host, none)) ∧
    (∀ e, env.urlParse endpoint = Except.error e → extractHost env endpoint = ("", some e)) := by
  have hc : (HasPrefix endpoint "https://" || HasPrefix endpoint "http://") = true := by
    rcases h with h | h <;> simp [h]
  constructor
  · intro u hu
    simp only [extractHost, hc, if_true, hu]
  · intro e he
    simp only [extractHost, hc, if_true, he]

/-- C6 at the spec's examples, with the reference parser: the host keeps the port
and drops scheme, path and query; a URL whose IP literal is not closed gives the
empty host and the parse error. -/
theorem extractHost_scheme_witness :
    HasPrefix "https://s3.example.com:9000" "https://" = true ∧
    extractHost goEnv "https://s3.example.com:9000" = ("s3.example.com:9000", none) ∧
    extractHost goEnv "http://minio" = ("minio", none) ∧
    extractHost goEnv "https://s3.example.com:9000/logs/2024?part=1" =
      ("s3.example.com:9000", none) ∧
    extractHost goEnv "http://[::1" = ("", some (GoError.other "missing ']' in host")) :=
  ⟨rfl,
   (extractHost_scheme goEnv "https://s3.example.com:9000" (Or.inl rfl)).1 _ rfl,
   (extractHost_scheme goEnv "http://minio" (Or.inr rfl)).1 _ rfl,
   (extractHost_scheme goEnv "https://s3.example.com:9000/logs/2024?part=1" (Or.inl rfl)).1 _ rfl,
   (extractHost_scheme goEnv "http://[::1" (Or.inr rfl)).2 _ rfl⟩

/-- C7: for an endpoint that begins with neither `https://` nor `http://`,
`extractHost` returns the endpoint unchanged with a nil error, whatever the
parser would say about it. -/
theorem extractHost_bare {C : Type} (env : Env C) (endpoint : String)
    (h : HasPrefix endpoint "https://" = false ∧ HasPrefix endpoint "http://" = false) :
    extractHost env endpoint = (endpoint, none) := by
  simp [extractHost, h.1, h.2]

/-- C7 at the spec's examples, and at an upper-case scheme, which is not one of the
two prefixes. -/
theorem extractHost_bare_witness :
    (HasPrefix "minio.internal:9000" "https://" = false ∧
      HasPrefix "minio.internal:9000" "http://" = false) ∧
    extractHost goEnv "minio.internal:9000" = ("minio.internal:9000", none) ∧
    extractHost goEnv "ht!tp://bad" = ("ht!tp://bad", none) ∧
    extractHost goEnv "HTTP://s3.example.com" = ("HTTP://s3.example.com", none) :=
  ⟨⟨rfl, rfl⟩,
   extractHost_bare goEnv "minio.internal:9000" ⟨rfl, rfl⟩,
   extractHost_bare goEnv "ht!tp://bad" ⟨rfl, rfl⟩,
   extractHost_bare goEnv "HTTP://s3.example.com" ⟨rfl, rfl⟩⟩

/-- C8: when `Load` succeeds on a listing, a second `Load` with the same listing
succeeds as well and yields a mapping with the same identifiers (`Get` succeeds
for the same ones, and the key lists agree), the same bucket name under each, and
the same hosts passed to `minio.New`, in the same order. -/
theorem Load_idempotent {C : Type} (env : Env C) (s : ShardedClientManager C)
    (buckets : List Bucket) (h : (Load env s (Except.ok buckets)).err = none) :
    (Load env (Load env s (Except.ok buckets)).state (Except.ok buckets)).err = none ∧
    (Load env (Load env s (Except.ok buckets)).state (Except.ok buckets)).state.clients.keys =
      (Load env s (Except.ok buckets)).state.clients.keys ∧
    (∀ id, (Get (Load env (Load env s (Except.ok buckets)).state (Except.ok buckets)).state id).2 =
      (Get (Load env s (Except.ok buckets)).state id).2) ∧
    (∀ id,
      (Get (Load env (Load env s (Except.ok buckets)).state (Except.ok buckets)).state id).1.map
          S3Client.bucketName =
        (Get (Load env s (Except.ok buckets)).state id).1.map S3Client.bucketName) ∧
    minioCalls (Load env (Load env s (Except.ok buckets)).state (Except.ok buckets)).trace =
      minioCalls (Load env s (Except.ok buckets)).trace := by
  have hsame : Load env (Load env s (Except.ok buckets)).state (Except.ok buckets) =
      Load env s (Except.ok buckets) := rfl
  rw [hsame]
  exact ⟨h, rfl, fun _ => rfl, fun _ => rfl, rfl⟩

/-- C8 at a concrete registry: loading {A, B} onto the registry that already holds
them succeeds, and loading them once more gives the same identifiers, bucket
names and hosts. -/
theorem Load_idempotent_witness :
    (Load goEnv loadedAB (Except.ok [bucketA, bucketB])).err = none ∧
    (Load goEnv (Load goEnv loadedAB (Except.ok [bucketA, bucketB])).state
      (Except.ok [bucketA, bucketB])).err = none ∧
    (Load goEnv (Load goEnv loadedAB (Except.ok [bucketA, bucketB])).state
      (Except.ok [bucketA, bucketB])).state.clients.keys =
      (Load goEnv loadedAB (Except.ok [bucketA, bucketB])).state.clients.keys ∧
    minioCalls (Load goEnv (Load goEnv loadedAB (Except.ok [bucketA, bucketB])).state
      (Except.ok [bucketA, bucketB])).trace = ["s3.example.com:9000", "minio.internal:9000"] := by
  have h := Load_idempotent goEnv loadedAB [bucketA, bucketB] (by decide)
  exact ⟨by decide, h.1, h.2.1, h.2.2.2.2.trans (by decide)⟩

/-- C9 as stated fails: in the `Load` of the one record A the exclusive lock is
acquired right after the listing, and the host extraction and the call of
`minio.New` come after it, while the lock is held. -/
theorem Load_constructs_under_lock :
    (Load goEnv (NewShardedClientManager sampleConfig) (Except.ok [bucketA])).trace =
      [Event.txListBuckets, Event.lock, Event.makeClients,
        Event.extractHost "https://s3.example.com:9000", Event.minioNew "s3.example.com:9000",
        Event.setClient 1 "logs-a", Event.unlock] ∧
    constructsBeforeLock
      (Load goEnv (NewShardedClientManager sampleConfig) (Except.ok [bucketA])).trace = false := by
  decide

/-- C9 amended: after a listing that succeeded, `Load` takes the exclusive lock
once, right after the listing, and releases it once, as its last step; the reset
of the mapping and every host extraction, client construction and insertion lie
in between, so all changes to the mapping are made while the lock is held.  When
`Load` returns nil, one insertion per record of the listing, in listing order,
has been made before the release. -/
theorem Load_lock_scope {C : Type} (env : Env C) (s : ShardedClientManager C)
    (buckets : List Bucket) :
    ∃ body : List Event,
      (Load env s (Except.ok buckets)).trace =
        Event.txListBuckets :: Event.lock :: Event.makeClients :: (body ++ [Event.unlock]) ∧
      (∀ ev ∈ body, ev.isFetchOrMutex = false) ∧
      extractCalls body = extractCalls (Load env s (Except.ok buckets)).trace ∧
      minioCalls body = minioCalls (Load env s (Except.ok buckets)).trace ∧
      setCalls body = setCalls (Load env s (Except.ok buckets)).trace ∧
      ((Load env s (Except.ok buckets)).err = none →
        setCalls body = buckets.map (fun b => (b.Id, b.Name))) := by
  refine ⟨(loadLoop env s.config buckets ∅).2.2, rfl,
    loadLoop_trace_no_mutex env s.config buckets ∅, ?_, ?_, ?_,
    loadLoop_setCalls_of_ok env s.config buckets ∅⟩
  · rw [(Load_ok_clients env s buckets).2.2.2]
    simp [extractCalls, extractCalls_append]
  · rw [(Load_ok_clients env s buckets).2.2.2]
    simp [minioCalls, minioCalls_append]
  · rw [(Load_ok_clients env s buckets).2.2.2]
    simp [setCalls, setCalls_append]

/-- C10: when the listing succeeds and record number `i` is the first whose host
extraction or client construction fails, with error `e`, `Load` returns `e`,
calls `extractHost` on the records `0..i` and on no later one, and leaves a
mapping made of the records `0..i-1` of this listing alone, whatever the mapping
was before: an identifier among them maps to the client built from the last of
them that has it, and every other identifier is not found. -/
theorem Load_first_failure {C : Type} (env : Env C) (s : ShardedClientManager C)
    (buckets : List Bucket) (i : Nat) (b : Bucket) (e : GoError)
    (hi : buckets[i]? = some b)
    (hpre : ∀ r ∈ buckets.take i, ∃ c, buildClient env s.config r = Except.ok c)
    (hb : buildClient env s.config b = Except.error e) :
    (Load env s (Except.ok buckets)).err = some e ∧
    extractCalls (Load env s (Except.ok buckets)).trace =
      (buckets.take (i + 1)).map Bucket.EndpointUrl ∧
    (∀ id r, lastWithId (buckets.take i) id = some r →
      ∃ c, buildClient env s.config r = Except.ok c ∧ c.bucketName = r.Name ∧
        Get (Load env s (Except.ok buckets)).state id = (some c, none)) ∧
    (∀ id, (∀ r ∈ buckets.take i, r.Id ≠ id) →
      Get (Load env s (Except.ok buckets)).state id = (none, some ErrClientNotFound)) := by
  obtain ⟨hlt, hget⟩ := List.getElem?_eq_some.mp hi
  have hsplit : buckets = buckets.take i ++ b :: buckets.drop (i + 1) := by
    conv_lhs => rw [← List.take_append_drop i buckets]
    rw [List.drop_eq_getElem_cons hlt, hget]
  have htake : buckets.take (i + 1) = buckets.take i ++ [b] := by
    rw [List.take_succ, hi]
    rfl
  have happ := loadLoop_append_error env s.config b (buckets.drop (i + 1)) e hb
    (buckets.take i) ∅ hpre
  rw [← hsplit] at happ
  have hpreLoop := loadLoop_of_all_ok env s.config (buckets.take i) ∅ hpre
  have hclients : ∀ id, (Load env s (Except.ok buckets)).state.clients.lookup id =
      match lastWithId (buckets.take i) id with
      | some r => (buildClient env s.config r).toOption
      | none => none := by
    intro id
    rw [(Load_ok_clients env s buckets).1, happ.1, hpreLoop.2 id]
    cases lastWithId (buckets.take i) id with
    | some r => rfl
    | none => exact AList.lookup_empty id
  refine ⟨(Load_ok_clients env s buckets).2.1.trans happ.2.1, ?_, ?_, ?_⟩
  · rw [(Load_ok_clients env s buckets).2.2.2, htake, ← happ.2.2]
    simp [extractCalls, extractCalls_append]
  · intro id r hr
    obtain ⟨c, hc⟩ := hpre r (lastWithId_some hr).1
    refine ⟨c, hc, buildClient_bucketName env s.config r c hc, ?_⟩
    apply Get_of_lookup_some
    rw [hclients id, hr]
    simp [hc, Except.toOption]
  · intro id hid
    apply Get_of_lookup_none
    rw [hclients id, lastWithId_eq_none.mpr hid]

/-- C10 at a concrete listing: on C, the malformed record, A, the load stops at
record 1 with its parse error, never looks at A, and leaves exactly C, although
the registry held A and B before. -/
theorem Load_first_failure_witness :
    [bucketC, bucketBad, bucketA][1]? = some bucketBad ∧
    (∀ r ∈ [bucketC, bucketBad, bucketA].take 1,
      ∃ c, buildClient goEnv loadedAB.config r = Except.ok c) ∧
    buildClient goEnv loadedAB.config bucketBad =
      Except.error (GoError.other "missing ']' in host") ∧
    (Load goEnv loadedAB (Except.ok [bucketC, bucketBad, bucketA])).err =
      some (GoError.other "missing ']' in host") ∧
    extractCalls (Load goEnv loadedAB (Except.ok [bucketC, bucketBad, bucketA])).trace =
      ["http://minio", "http://[::1"] ∧
    Get (Load goEnv loadedAB (Except.ok [bucketC, bucketBad, bucketA])).state 1 =
      (none, some ErrClientNotFound) := by
  have hpre : ∀ r ∈ [bucketC, bucketBad, bucketA].take 1,
      ∃ c, buildClient goEnv loadedAB.config r = Except.ok c := by
    intro r hr
    simp only [List.take, List.mem_singleton] at hr
    subst hr
    exact ⟨_, rfl⟩
  have h := Load_first_failure goEnv loadedAB [bucketC, bucketBad, bucketA] 1 bucketBad
    (GoError.other "missing ']' in host") rfl hpre rfl
  exact ⟨rfl, hpre, rfl, h.1, h.2.1, h.2.2.2 1 (by decide)⟩

end s3client
